import Mathlib

/-!
Shallow embedding of the pubpub publication-harvesting pipeline
(`scripts/build-publications.mjs`, `scripts/pubmed.mjs`,
`scripts/build-grants.mjs`) and proofs about its behavior.

Pure functions of the source are translated into executable Lean
definitions; the SQLite tables are modelled as lists of row structures,
with the SQL statements (upserts, joined reads) translated into list
operations; the retrying network client is modelled as a pure function of
the sequence of attempt outcomes the network would deliver.
-/

namespace PubPub

/-! ## String normalization helpers (build-publications.mjs) -/

/-- `normalizeName`: lowercase and strip everything but the letters a-z. -/
def normalizeName (value : String) : String :=
  String.mk ((value.toList.map Char.toLower).filter (fun c => c.isLower))

/-- `normalizeAffiliation`: lowercase and keep only a-z and 0-9. -/
def normalizeAffiliation (value : String) : String :=
  String.mk ((value.toList.map Char.toLower).filter (fun c => c.isLower || c.isDigit))

/-- The fixed `STOPWORDS` set of the keyword extractor. -/
def STOPWORDS : List String :=
  ["a", "an", "and", "are", "as", "at", "be", "between", "by", "case",
   "control", "for", "from", "in", "into", "is", "long", "of", "on",
   "outcomes", "patients", "report", "review", "study", "studies", "the",
   "to", "with", "without"]

/-- Splitting a character stream at spaces, accumulating the current
token in reverse; mirrors `String.split(/\s+/)` up to empty tokens, which
the length filter of `extractKeywords` discards in both readings. -/
def splitOnSpaces : List Char → List Char → List String
  | [], cur => [String.mk cur.reverse]
  | ' ' :: rest, cur => String.mk cur.reverse :: splitOnSpaces rest []
  | c :: rest, cur => splitOnSpaces rest (c :: cur)

/-- `extractKeywords`: lowercase the title, collapse non-alphanumerics to
spaces, split on whitespace, and keep tokens of length at least 3 that are
not stopwords. -/
def extractKeywords (value : String) : List String :=
  (splitOnSpaces ((value.toList.map Char.toLower).map
      (fun c => if c.isLower || c.isDigit then c else ' ')) []).filter
    (fun token => 3 ≤ token.length && !(STOPWORDS.contains token))

/-! ## Retrying network clients (pubmed.mjs `ncbiGetJson`,
build-grants.mjs `reporterSearch`)

One call is modelled as a pure function of the list of outcomes the
network would produce for the successive attempts: the list has one entry
per available attempt (`maxRetries` entries), and the loop stops early on
success.  An HTTP response that is not `ok` carries its status and body; a
connection failure or timeout abort carries its error message. -/

/-- Outcome the network delivers for one attempt. -/
inductive Attempt where
  | ok (payload : String)
  | http (status : Nat) (body : String)
  | netErr (message : String)
deriving DecidableEq

/-- Result of the whole retrying call. -/
inductive FetchResult where
  | success (payload : String)
  | failure (message : String)
deriving DecidableEq

/-- `RETRYABLE_STATUSES` shared by both clients. -/
def RETRYABLE_STATUSES : List Nat := [429, 500, 502, 503, 504]

/-- Error message built for a non-ok NCBI response. -/
def ncbiErrorMessage (status : Nat) (body : String) : String :=
  "NCBI request failed (" ++ toString status ++ "): " ++ body

/-- `ncbiGetJson`: the retry loop of pubmed.mjs.  An empty remaining list
means the attempt budget is exhausted.  A retryable status sleeps and
retries.  A non-retryable status throws an error carrying the body, but
that throw happens inside the `try` block, so the surrounding `catch`
retries it too unless this was the last attempt; the same holds for
connection errors and timeouts. -/
def ncbiGetJson : List Attempt → FetchResult
  | [] => FetchResult.failure "NCBI request failed after retries"
  | Attempt.ok payload :: _ => FetchResult.success payload
  | Attempt.http status body :: rest =>
    if status ∈ RETRYABLE_STATUSES then ncbiGetJson rest
    else if rest = [] then FetchResult.failure (ncbiErrorMessage status body)
    else ncbiGetJson rest
  | Attempt.netErr message :: rest =>
    if rest = [] then FetchResult.failure message else ncbiGetJson rest

/-- Error message built for a non-ok NIH RePORTER response. -/
def reporterErrorMessage (status : Nat) (body : String) : String :=
  "NIH RePORTER request failed (" ++ toString status ++ "): " ++ body

/-- `reporterSearch`: the retry loop of build-grants.mjs; identical
control flow to `ncbiGetJson` with different error strings. -/
def reporterSearch : List Attempt → FetchResult
  | [] => FetchResult.failure "NIH RePORTER request failed after retries"
  | Attempt.ok payload :: _ => FetchResult.success payload
  | Attempt.http status body :: rest =>
    if status ∈ RETRYABLE_STATUSES then reporterSearch rest
    else if rest = [] then FetchResult.failure (reporterErrorMessage status body)
    else reporterSearch rest
  | Attempt.netErr message :: rest =>
    if rest = [] then FetchResult.failure message else reporterSearch rest

/-! ## Author identity model (build-publications.mjs) -/

/-- JavaScript `String.prototype.trim`: drop leading and trailing
whitespace. -/
def jsTrim (s : String) : String :=
  String.mk (((s.toList.dropWhile Char.isWhitespace).reverse.dropWhile
    Char.isWhitespace).reverse)

/-- `s.startsWith(p)` on character lists: the first list starts with the
second. -/
def startsWithList : List Char → List Char → Bool
  | _, [] => true
  | [], _ :: _ => false
  | c :: cs, p :: ps => c == p && startsWithList cs ps

/-- `s.includes(p)` on character lists: the second list occurs as a
contiguous run inside the first. -/
def containsSub : List Char → List Char → Bool
  | [], needle => needle.isEmpty
  | c :: rest, needle => startsWithList (c :: rest) needle || containsSub rest needle

/-- One parsed `Identifier` node of a PubMed author entry: either a bare
string or an element with a `Source` attribute and text content. -/
inductive PmIdentifier where
  | str (value : String)
  | node (source : String) (text : String)
deriving DecidableEq

/-- A parsed PubMed `Author` element.  The string fields hold the
`getText` of the corresponding child node, `""` when absent;
`affiliationInfo` holds the `Affiliation` text of each `AffiliationInfo`
entry, pre-trim. -/
structure Author where
  lastName : String
  foreName : String
  initials : String
  collectiveName : String
  identifiers : List PmIdentifier
  affiliationInfo : List String
deriving DecidableEq

/-- One name variant of a researcher. -/
structure NameVariant where
  foreName : String
  lastName : String
deriving DecidableEq

/-- The fields of a parsed roster person that author matching reads. -/
structure Person where
  name : String
  orcid : String
  foreName : String
  lastName : String
  nameVariants : List NameVariant
deriving DecidableEq

/-- The pattern the source's `extractOrcid` tests bare identifier strings
against.  The regex literal is `/\\d{4}-\\d{4}-\\d{4}-\\d{4}/`, whose
double backslashes make it match a literal backslash followed by four
letters `d` in each group, so the Lean model searches for that literal
text. -/
def BROKEN_ORCID_PATTERN : String := "\\dddd-\\dddd-\\dddd-\\dddd"

/-- `extractOrcid`: first identifier that is a bare string matching the
(broken) pattern, or the text of the first node whose source is ORCID. -/
def extractOrcid : List PmIdentifier → String
  | [] => ""
  | PmIdentifier.str value :: rest =>
    if containsSub value.toList BROKEN_ORCID_PATTERN.toList then value
    else extractOrcid rest
  | PmIdentifier.node source text :: rest =>
    if source = "ORCID" then text else extractOrcid rest

/-- `extractAffiliations`: the author's affiliation strings, trimmed,
empties dropped. -/
def extractAffiliations (author : Author) : List String :=
  (author.affiliationInfo.map jsTrim).filter (fun text => text ≠ "")

/-- `formatAuthorName`: collective name if present, else forename +
surname, else initials + surname, else surname. -/
def formatAuthorName (author : Option Author) : String :=
  match author with
  | none => ""
  | some a =>
    if a.collectiveName ≠ "" then jsTrim a.collectiveName
    else
      let last := jsTrim a.lastName
      let fore := jsTrim a.foreName
      let initials := jsTrim a.initials
      if fore ≠ "" && last ≠ "" then fore ++ " " ++ last
      else if initials ≠ "" && last ≠ "" then initials ++ " " ++ last
      else last

/-- The dash-stripping `orcid.replace` applied before comparing ORCID
values. -/
def stripDashes (s : String) : String :=
  String.mk (s.toList.filter (fun c => c ≠ '-'))

/-- The name variants the matcher iterates: the person's variant list, or
a single variant built from the person's own fore/last name when the list
is empty. -/
def resolvedVariants (person : Person) : List NameVariant :=
  if person.nameVariants ≠ [] then person.nameVariants
  else [⟨person.foreName, person.lastName⟩]

/-- `normalizeName(getText(author.Initials || author.ForeName)).charAt(0)`:
the first character of the normalized initials, falling back to the
forename when the initials text is empty. -/
def authorInitialOf (author : Author) : Option Char :=
  (normalizeName (if author.initials ≠ "" then author.initials
    else author.foreName)).toList.head?

/-- The per-variant test of `authorMatchesPerson`: family names must match
exactly after normalization; then the normalized given names match
exactly or by a prefix relation, or, failing that, the first initials
match. -/
def variantMatches (authorLast authorFore : String) (authorInitial : Option Char)
    (variant : NameVariant) : Bool :=
  let personLast := normalizeName variant.lastName
  if personLast = "" || authorLast ≠ personLast then false
  else
    let personFore := normalizeName variant.foreName
    if authorFore ≠ "" && personFore ≠ "" &&
        (authorFore == personFore ||
         startsWithList authorFore.toList personFore.toList ||
         startsWithList personFore.toList authorFore.toList) then true
    else
      match authorInitial, personFore.toList.head? with
      | some ai, some pin => ai == pin
      | _, _ => false

/-- `authorMatchesPerson`: ORCID match when the person has one, else
family-name plus given-name/initial matching over every name variant.
Note that the initial fallback is not gated by any configuration toggle:
`PUB_USE_INITIALS` is read only by `buildTerm` for query construction. -/
def authorMatchesPerson (author : Option Author) (person : Person) : Bool :=
  match author with
  | none => false
  | some a =>
    let orcidMatch :=
      if person.orcid ≠ "" then
        let authorOrcid := stripDashes (extractOrcid a.identifiers)
        let targetOrcid := stripDashes person.orcid
        authorOrcid ≠ "" && targetOrcid ≠ "" && authorOrcid == targetOrcid
      else false
    if orcidMatch then true
    else
      let authorLast := normalizeName a.lastName
      if authorLast = "" then false
      else
        let authorFore := normalizeName a.foreName
        let authorInitial := authorInitialOf a
        (resolvedVariants person).any
          (variantMatches authorLast authorFore authorInitial)

/-! ## Candidate query builder (build-publications.mjs `buildAuthorClause`) -/

/-- The clauses one name variant contributes: a full-name `[fau]` clause
when both names are present, and a surname-plus-first-initial `[au]`
clause when `includeInitials` is set. -/
def clausesOfVariant (includeInitials : Bool) (variant : NameVariant) : List String :=
  let trimmedFirst := jsTrim variant.foreName
  let trimmedLast := jsTrim variant.lastName
  if trimmedLast = "" then []
  else
    let fullName := if trimmedFirst ≠ "" && trimmedLast ≠ "" then
        trimmedLast ++ " " ++ trimmedFirst ++ "[fau]" else ""
    let firstInitial := match trimmedFirst.toList.head? with
      | some c => String.mk [c]
      | none => ""
    let initialName := if includeInitials && firstInitial ≠ "" && trimmedLast ≠ "" then
        trimmedLast ++ " " ++ firstInitial ++ "[au]" else ""
    (if fullName ≠ "" then [fullName] else []) ++
      (if initialName ≠ "" then [initialName] else [])

/-- The ordered clause list `buildAuthorClause` accumulates before
deduplication: per-variant clauses, then the `[auid]` clause when an
ORCID is available. -/
def buildAuthorClauseList (nameVariants : List NameVariant) (orcid : String)
    (includeInitials : Bool) : List String :=
  (nameVariants.flatMap (clausesOfVariant includeInitials)) ++
    (if orcid ≠ "" then [orcid ++ "[auid]"] else [])

/-- `buildAuthorClause`: deduplicated clauses, OR'd and parenthesized. -/
def buildAuthorClause (nameVariants : List NameVariant) (orcid : String)
    (includeInitials : Bool) : String :=
  match (buildAuthorClauseList nameVariants orcid includeInitials).eraseDups with
  | [] => ""
  | [clause] => clause
  | clauses => "(" ++ String.intercalate " OR " clauses ++ ")"

/-- `s.endsWith(p)` on character lists. -/
def endsWithList (s p : List Char) : Bool :=
  startsWithList s.reverse p.reverse

/-- An attempt outcome that is an HTTP response with a status outside the
retryable set. -/
def isNonRetryableHttp : Attempt → Bool
  | Attempt.http status _ => decide (status ∉ RETRYABLE_STATUSES)
  | _ => false

/-- An attempt outcome that is an HTTP response with a status in the
retryable set. -/
def isRetryableHttp : Attempt → Bool
  | Attempt.http status _ => decide (status ∈ RETRYABLE_STATUSES)
  | _ => false

/-! ## Dates

A JavaScript `Date` is modelled by its comparable timestamp plus its
`getFullYear` value; `mkDate` builds the timestamp lexicographically from
(year, monthIndex, day), which agrees with chronological order on the
in-range parts the pipeline constructs. -/

/-- Model of a JavaScript `Date` value. -/
structure JsDate where
  time : Int
  year : Int
deriving DecidableEq

/-- Model of `new Date(year, monthIndex, day)`. -/
def mkDate (year month day : Int) : JsDate :=
  ⟨year * 10000 + month * 100 + day, year⟩

/-- Digits of a token read as a decimal number. -/
def digitsToNat (cs : List Char) : Nat :=
  cs.foldl (fun acc c => acc * 10 + (c.toNat - '0'.toNat)) 0

/-- The first run of four consecutive digits in a character stream, as
the JS regex scan for four digits finds it. -/
def firstFourDigitRun : List Char → Option (List Char)
  | c1 :: c2 :: c3 :: c4 :: rest =>
    if c1.isDigit && c2.isDigit && c3.isDigit && c4.isDigit then some [c1, c2, c3, c4]
    else firstFourDigitRun (c2 :: c3 :: c4 :: rest)
  | _ => none

/-- `extractYear`: the first four-digit run of the string as a number,
null for the empty string or when no run exists. -/
def extractYear (value : String) : Option Int :=
  if value = "" then none
  else (firstFourDigitRun value.toList).map (fun cs => (digitsToNat cs : Int))

/-- The month-name table of `parseMonthValue`. -/
def MONTH_INDEX : List (String × Nat) :=
  [("jan", 0), ("feb", 1), ("mar", 2), ("apr", 3), ("may", 4), ("jun", 5),
   ("jul", 6), ("aug", 7), ("sep", 8), ("oct", 9), ("nov", 10), ("dec", 11)]

/-- `Number(token)` restricted to the all-digit tokens the date parser
feeds it; anything else is NaN. -/
def jsNumberNat (s : String) : Option Nat :=
  if s ≠ "" && s.toList.all Char.isDigit then some (digitsToNat s.toList) else none

/-- `parseMonthValue`: a numeric token 1..12 becomes its zero-based month
index, otherwise the first three letters are looked up in the month
table. -/
def parseMonthValue (value : String) : Option Nat :=
  if value = "" then none
  else
    let token := String.mk (value.toList.map Char.toLower)
    match jsNumberNat token with
    | some n => if 1 ≤ n && n ≤ 12 then some (n - 1) else none
    | none =>
      (MONTH_INDEX.find? (fun e => e.1 == String.mk (token.toList.take 3))).map
        (fun e => e.2)

/-- The scan of `parsePubDateString` for the first four-digit token,
returning it with the remaining tokens. -/
def findYearToken : List String → Option (Nat × List String)
  | [] => none
  | t :: rest =>
    if t.toList.length = 4 && t.toList.all Char.isDigit then
      some (digitsToNat t.toList, rest)
    else findYearToken rest

/-- The scan for the first token after the year that parses as a month. -/
def findMonthToken : List String → Option (Nat × List String)
  | [] => none
  | t :: rest =>
    match parseMonthValue t with
    | some m => some (m, rest)
    | none => findMonthToken rest

/-- The scan for the first one-or-two-digit token in range 1..31 after
the month; defaults to day 1. -/
def findDayToken : List String → Nat
  | [] => 1
  | t :: rest =>
    let cs := t.toList
    if (cs.length = 1 || cs.length = 2) && cs.all Char.isDigit then
      let n := digitsToNat cs
      if 1 ≤ n && n ≤ 31 then n else findDayToken rest
    else findDayToken rest

/-- `parsePubDateString`: strip separators, tokenize, find the year,
then a month, then a day, defaulting month to January and day to 1. -/
def parsePubDateString (value : String) : Option JsDate :=
  if value = "" then none
  else
    let cleaned := jsTrim (String.mk (value.toList.map
      (fun c => if c = ';' || c = ',' then ' ' else c)))
    let tokens := (splitOnSpaces (cleaned.toList.map
      (fun c => if c = '-' || c = '/' then ' ' else c)) []).filter (fun t => t ≠ "")
    match findYearToken tokens with
    | none => none
    | some (year, afterYear) =>
      if year = 0 then none
      else
        match findMonthToken afterYear with
        | some (monthIndex, afterMonth) =>
          some (mkDate (year : Int) (monthIndex : Int) (findDayToken afterMonth))
        | none => some (mkDate (year : Int) 0 1)

/-! ## Identity and affiliation resolver
(build-publications.mjs `filterPmidsByAuthorAffiliation`)

The fetched-and-parsed XML articles are the input; the sets and maps the
function accumulates are modelled as lists with JS `Set.add` /
`Map.set` insertion semantics. -/

/-- Hard-coded default affiliation term. -/
def DEFAULT_AFFILIATION : String := "University of Minnesota"

/-- JS `Set.prototype.add`: insert if not already present. -/
def setAdd (s : List String) (x : String) : List String :=
  if x ∈ s then s else s ++ [x]

/-- JS `Map.prototype.set`: replace the value under an existing key or
append a new entry. -/
def mapSet {α : Type} (m : List (String × α)) (key : String) (value : α) :
    List (String × α) :=
  if m.any (fun e => e.1 == key) then
    m.map (fun e => if e.1 == key then (key, value) else e)
  else m ++ [(key, value)]

/-- JS `Map.prototype.get` as an Option. -/
def mapGet {α : Type} (m : List (String × α)) (key : String) : Option α :=
  (m.find? (fun e => e.1 == key)).map (fun e => e.2)

/-- The authorship-position facts recorded for a matched author. -/
structure Authorship where
  position : Nat
  total : Nat
  isFirst : Bool
  isLast : Bool
deriving DecidableEq

/-- One article as parsed from the efetch XML by `parseArticlesFromXml`
(pmid text, ordered author list, best-available publication date). -/
structure Article where
  pmid : String
  authors : List Author
  pubDate : Option JsDate
deriving DecidableEq

/-- The accumulator state and result of the resolver. -/
structure FilterResult where
  validPmids : List String
  pubDates : List (String × JsDate)
  coauthorsByPmid : List (String × List String)
  authorshipByPmid : List (String × Authorship)
  missingAffiliationCount : Nat
deriving DecidableEq

/-- The body of the per-article `forEach` of
`filterPmidsByAuthorAffiliation`: record the pub date, find the first
matching author, record co-authors and authorship facts, then accept the
pmid when the matched author's affiliations are empty (counting a
missing-affiliation warning) or contain an allowed term. -/
def processArticle (person : Person) (normalizedAllowed : List String)
    (state : FilterResult) (article : Article) : FilterResult :=
  let state1 := match article.pubDate with
    | some d =>
      if article.pmid ≠ "" then
        { state with pubDates := mapSet state.pubDates article.pmid d }
      else state
    | none => state
  let matchedIndex := article.authors.findIdx?
    (fun a => authorMatchesPerson (some a) person)
  let totalAuthors := article.authors.length
  let coauthors := (article.authors.filter
      (fun a => !(authorMatchesPerson (some a) person))).filterMap
    (fun a =>
      let n := formatAuthorName (some a)
      if n = "" then none else some n)
  let state2 :=
    if article.pmid ≠ "" then
      let s := { state1 with
        coauthorsByPmid := mapSet state1.coauthorsByPmid article.pmid coauthors }
      match matchedIndex with
      | some idx =>
        let facts := Authorship.mk idx totalAuthors (idx == 0)
          (decide (0 < totalAuthors) && idx == totalAuthors - 1)
        { s with authorshipByPmid := mapSet s.authorshipByPmid article.pmid facts }
      | none => s
    else state1
  match matchedIndex with
  | none => state2
  | some idx =>
    match article.authors[idx]? with
    | none => state2
    | some matchedAuthor =>
      let affiliations := extractAffiliations matchedAuthor
      if affiliations = [] then
        { state2 with
          missingAffiliationCount := state2.missingAffiliationCount + 1,
          validPmids := setAdd state2.validPmids article.pmid }
      else
        let normalizedAffiliations := affiliations.map normalizeAffiliation
        if normalizedAffiliations.any (fun aff =>
            normalizedAllowed.any (fun term => containsSub aff.toList term.toList)) then
          { state2 with validPmids := setAdd state2.validPmids article.pmid }
        else state2

/-- The initial accumulator of the resolver. -/
def emptyFilterResult : FilterResult := ⟨[], [], [], [], 0⟩

/-- The resolver's loop over every parsed article of every batch. -/
def processArticles (person : Person) (normalizedAllowed : List String)
    (articles : List Article) : FilterResult :=
  articles.foldl (processArticle person normalizedAllowed) emptyFilterResult

/-- `filterPmidsByAuthorAffiliation` over the already-fetched articles:
allowed terms default to the hard-coded affiliation, are normalized, and
the per-article loop runs.  A run that finds matched authors without any
affiliation strings finishes normally (the function is total — missing
affiliation data is never an error) and its count drives the warning. -/
def filterPmidsByAuthorAffiliation (articles : List Article) (person : Person)
    (affiliationTerms : List String) : FilterResult :=
  let allowedTerms := if affiliationTerms ≠ [] then affiliationTerms
    else [DEFAULT_AFFILIATION]
  let normalizedAllowed := (allowedTerms.map normalizeAffiliation).filter
    (fun t => t ≠ "")
  processArticles person normalizedAllowed articles

/-! ## Persistent record store (SQLite tables as row lists) -/

/-- The CHECK-constrained verdict column of the curation table. -/
inductive Verdict where
  | truePositive
  | falsePositive
deriving DecidableEq

/-- One row of the `curation` table. -/
structure CurationRow where
  facultyId : String
  pmid : String
  verdict : Verdict
  reason : Option String
  updatedAt : String
deriving DecidableEq

/-- One row of the `faculty_publications` table. -/
structure FacultyPubRow where
  facultyId : String
  pmid : String
  firstSeenAt : String
  lastSeenAt : String
  source : String
deriving DecidableEq

/-- One row of the `publications` table. -/
structure PublicationRow where
  pmid : String
  title : String
  journal : String
  year : Option Int
  doi : String
  url : String
  updatedAt : String
deriving DecidableEq

/-- The INSERT ... ON CONFLICT(faculty_id, pmid) DO UPDATE statement of
`seedCurationFromJson`: an existing row with the key keeps its place and
takes the excluded row's verdict, reason and timestamp; otherwise the row
is appended. -/
def curationUpsert (table : List CurationRow) (row : CurationRow) : List CurationRow :=
  if table.any (fun r => r.facultyId == row.facultyId && r.pmid == row.pmid) then
    table.map (fun r =>
      if r.facultyId == row.facultyId && r.pmid == row.pmid then
        { r with verdict := row.verdict, reason := row.reason, updatedAt := row.updatedAt }
      else r)
  else table ++ [row]

/-- `normalizePmid`: strip every non-digit. -/
def normalizePmid (value : String) : String :=
  String.mk (value.toList.filter Char.isDigit)

/-- `normalizePmidList` over string entries: normalize each and drop
empties. -/
def normalizePmidList (entries : List String) : List String :=
  (entries.map normalizePmid).filter (fun pm => pm ≠ "")

/-- One faculty entry of the legacy curation.json file. -/
structure SeedEntry where
  falsePositives : List String
  truePositives : List String
deriving DecidableEq

/-- The legacy curation.json file: faculty id to entry. -/
structure SeedFile where
  faculty : List (String × SeedEntry)
deriving DecidableEq

/-- `seedCurationFromJson`: a no-op when the legacy file is absent, when
the curation table already has any row, or when the file is unreadable;
otherwise every listed pmid is upserted as a seeded verdict row. -/
def seedCurationFromJson (fileExists : Bool) (data : Option SeedFile)
    (table : List CurationRow) (timestamp : String) : List CurationRow :=
  if !fileExists then table
  else if 0 < table.length then table
  else
    match data with
    | none => table
    | some d =>
      d.faculty.foldl (fun t entry =>
        let t1 := (normalizePmidList entry.2.falsePositives).foldl
          (fun acc pm => curationUpsert acc
            ⟨entry.1, pm, Verdict.falsePositive, some "seeded from curation.json", timestamp⟩) t
        (normalizePmidList entry.2.truePositives).foldl
          (fun acc pm => curationUpsert acc
            ⟨entry.1, pm, Verdict.truePositive, some "seeded from curation.json", timestamp⟩) t1)
        table

/-- `upsertFacultyPublication`: INSERT with first and last seen set to
the same timestamp and the schema-default source, ON CONFLICT update of
the last-seen column only. -/
def upsertFacultyPublication (table : List FacultyPubRow) (facultyId pmid timestamp : String) :
    List FacultyPubRow :=
  if table.any (fun r => r.facultyId == facultyId && r.pmid == pmid) then
    table.map (fun r =>
      if r.facultyId == facultyId && r.pmid == pmid then { r with lastSeenAt := timestamp }
      else r)
  else table ++ [⟨facultyId, pmid, timestamp, timestamp, "pubmed"⟩]

/-- `getPublicationsForFaculty`: publications joined to the researcher's
association rows, left-joined to false-positive curation rows, keeping
only rows with no such curation row. -/
def getPublicationsForFaculty (publications : List PublicationRow)
    (facultyPublications : List FacultyPubRow) (curation : List CurationRow)
    (facultyId : String) : List PublicationRow :=
  publications.filter (fun p =>
    facultyPublications.any (fun fp => fp.facultyId == facultyId && fp.pmid == p.pmid) &&
    !(curation.any (fun c => c.facultyId == facultyId && c.pmid == p.pmid &&
        c.verdict == Verdict.falsePositive)))

/-- At most one curation row per (researcher, record) key. -/
def curationKeyUnique (table : List CurationRow) : Prop :=
  table.Pairwise (fun a b => ¬(a.facultyId = b.facultyId ∧ a.pmid = b.pmid))

/-! ## Summaries and the per-researcher pipeline fragment of `main` -/

/-- One entry of a summary's `articleids`. -/
structure ArticleId where
  idtype : String
  value : String
deriving DecidableEq

/-- An esummary record as the pipeline reads it. -/
structure Summary where
  uid : String
  title : String
  fulljournalname : String
  source : String
  pubdate : String
  articleids : List ArticleId
deriving DecidableEq

/-- `extractDoi`: the value of the first article id of type doi. -/
def extractDoi (articleids : List ArticleId) : String :=
  match articleids.find? (fun i => i.idtype == "doi") with
  | some d => d.value
  | none => ""

/-- The output publication object. -/
structure Publication where
  id : String
  title : String
  journal : String
  year : Option Int
  doi : String
  url : String
deriving DecidableEq

/-- `mapSummaryToPublication`: resolved-date year with pubdate-string
fallback (a falsy year 0 becomes null), trimmed title with placeholder
fallback, journal fallbacks, doi and canonical url. -/
def mapSummaryToPublication (summary : Summary) (pubDate : Option JsDate) : Publication :=
  let year := match pubDate with
    | some d => some d.year
    | none => extractYear summary.pubdate
  { id := summary.uid
    title := if jsTrim summary.title ≠ "" then jsTrim summary.title
      else "PubMed " ++ summary.uid
    journal := if summary.fulljournalname ≠ "" then summary.fulljournalname
      else if summary.source ≠ "" then summary.source
      else "Unknown journal"
    year := match year with
      | some 0 => none
      | y => y
    doi := extractDoi summary.articleids
    url := "https://pubmed.ncbi.nlm.nih.gov/" ++ summary.uid ++ "/" }

/-- `resolvePubDate`: the resolver's date for the uid, else the parsed
pubdate string. -/
def resolvePubDate (summary : Summary) (pubDates : List (String × JsDate)) :
    Option JsDate :=
  let fallback := parsePubDateString summary.pubdate
  match mapGet pubDates summary.uid with
  | some d => some d
  | none => fallback

/-- The truthiness-guarded `a && b && a < b` comparison of nullable
numbers used by the year checks. -/
def truthyLt (a b : Option Int) : Bool :=
  match a, b with
  | some x, some y => x != 0 && y != 0 && decide (x < y)
  | _, _ => false

/-- The truthiness-guarded `a && b && a > b` comparison. -/
def truthyGt (a b : Option Int) : Bool :=
  match a, b with
  | some x, some y => x != 0 && y != 0 && decide (y < x)
  | _, _ => false

/-- `a && b && a < b` on nullable dates (Date objects are always truthy;
comparison is by timestamp). -/
def dateLt (a b : Option JsDate) : Bool :=
  match a, b with
  | some x, some y => decide (x.time < y.time)
  | _, _ => false

/-- JS strict equality on nullable numbers: null equals only null. -/
def jsStrictEqNum : Option Int → Option Int → Bool
  | some a, some b => a == b
  | none, none => true
  | _, _ => false

/-- `shouldIncludePublication`: the date-window filter of the pipeline. -/
def shouldIncludePublication (pubDate : Option JsDate) (pubYear : Option Int)
    (startDate endDate : Option JsDate) : Bool :=
  let startYear := startDate.map JsDate.year
  let endYear := endDate.map JsDate.year
  if truthyLt pubYear startYear then false
  else if truthyGt pubYear endYear then false
  else if dateLt pubDate startDate then false
  else if dateLt endDate pubDate then false
  else if startDate.isSome && pubDate.isNone && jsStrictEqNum pubYear startYear then false
  else true

/-- JS `new Set(list)` insertion order. -/
def newSetFromList (l : List String) : List String :=
  l.foldl setAdd []

/-- `new Set([...validPmids, ...truePositiveSet])` of `main`. -/
def curatedValidPmids (validPmids truePositiveSet : List String) : List String :=
  newSetFromList (validPmids ++ truePositiveSet)

/-- The `publicationsToUpsert` chain of `main`: summaries restricted to
the curated-valid set, minus confirmed false positives, kept when curated
true-positive (bypassing the date window) or when the date-window filter
accepts them, mapped to publication objects. -/
def publicationsToUpsert (summaries : List Summary)
    (validPmids truePositiveSet falsePositiveSet : List String)
    (pubDates : List (String × JsDate)) (startDate endDate : Option JsDate) :
    List Publication :=
  let curatedValid := curatedValidPmids validPmids truePositiveSet
  (((summaries.filter (fun s => curatedValid.contains s.uid)).filter
      (fun s => !(falsePositiveSet.contains s.uid))).filter
      (fun s =>
        let pubDate := resolvePubDate s pubDates
        let pubYear := match pubDate with
          | some d => some d.year
          | none => extractYear s.pubdate
        let isTruePositive := truePositiveSet.contains s.uid
        isTruePositive || shouldIncludePublication pubDate pubYear startDate endDate)).map
    (fun s => mapSummaryToPublication s (resolvePubDate s pubDates))

theorem ncbiGetJson_all_nonretryable (attempts : List Attempt) (s : Nat) (b : String)
    (hlast : attempts.getLast? = some (Attempt.http s b))
    (hall : attempts.all isNonRetryableHttp = true) :
    ncbiGetJson attempts = FetchResult.failure (ncbiErrorMessage s b) := by
  induction attempts with
  | nil => simp at hlast
  | cons a rest ih =>
    rw [List.all_cons, Bool.and_eq_true] at hall
    obtain ⟨ha, hrest⟩ := hall
    cases a with
    | ok p => simp [isNonRetryableHttp] at ha
    | netErr m => simp [isNonRetryableHttp] at ha
    | http u v =>
      have hu : u ∉ RETRYABLE_STATUSES := by
        simpa [isNonRetryableHttp] using ha
      cases rest with
      | nil =>
        simp only [List.getLast?_singleton, Option.some.injEq] at hlast
        cases hlast
        simp [ncbiGetJson, hu]
      | cons r rs =>
        rw [List.getLast?_cons_cons] at hlast
        have := ih hlast hrest
        simpa [ncbiGetJson, hu] using this

theorem ncbiGetJson_all_retryable (attempts : List Attempt)
    (hall : attempts.all isRetryableHttp = true) :
    ncbiGetJson attempts = FetchResult.failure "NCBI request failed after retries" := by
  induction attempts with
  | nil => rfl
  | cons a rest ih =>
    rw [List.all_cons, Bool.and_eq_true] at hall
    obtain ⟨ha, hrest⟩ := hall
    cases a with
    | ok p => simp [isRetryableHttp] at ha
    | netErr m => simp [isRetryableHttp] at ha
    | http u v =>
      have hu : u ∈ RETRYABLE_STATUSES := by
        simpa [isRetryableHttp] using ha
      simpa [ncbiGetJson, hu] using ih hrest

theorem reporterSearch_all_nonretryable (attempts : List Attempt) (s : Nat) (b : String)
    (hlast : attempts.getLast? = some (Attempt.http s b))
    (hall : attempts.all isNonRetryableHttp = true) :
    reporterSearch attempts = FetchResult.failure (reporterErrorMessage s b) := by
  induction attempts with
  | nil => simp at hlast
  | cons a rest ih =>
    rw [List.all_cons, Bool.and_eq_true] at hall
    obtain ⟨ha, hrest⟩ := hall
    cases a with
    | ok p => simp [isNonRetryableHttp] at ha
    | netErr m => simp [isNonRetryableHttp] at ha
    | http u v =>
      have hu : u ∉ RETRYABLE_STATUSES := by
        simpa [isNonRetryableHttp] using ha
      cases rest with
      | nil =>
        simp only [List.getLast?_singleton, Option.some.injEq] at hlast
        cases hlast
        simp [reporterSearch, hu]
      | cons r rs =>
        rw [List.getLast?_cons_cons] at hlast
        have := ih hlast hrest
        simpa [reporterSearch, hu] using this

/-- C3, counterexample: a non-retryable HTTP status (404) does NOT make
the retrying client fail immediately — the error thrown for it is caught
by the same attempt loop's catch block and retried, so a success on the
next attempt is returned. -/
theorem c3_counterexample :
    404 ∉ RETRYABLE_STATUSES ∧
    ncbiGetJson [Attempt.http 404 "Not Found", Attempt.ok "payload"] =
      FetchResult.success "payload" := by
  exact ⟨by decide, rfl⟩

/-- C3, amended: a non-retryable HTTP status raises an error capturing the
status and response body, but that error is retried like a transient
failure; only when the non-retryable response happens on the final attempt
does the call fail with the body-capturing error (so a run whose attempts
all yield non-retryable statuses fails with the last attempt's status and
body after consuming the whole attempt budget), while a run whose attempts
all yield retryable statuses exhausts the budget and fails with the
generic after-retries message; `reporterSearch` behaves the same way. -/
theorem c3_retry_client_amended (attempts : List Attempt) (s : Nat) (b : String) :
    (attempts.getLast? = some (Attempt.http s b) →
      attempts.all isNonRetryableHttp = true →
      ncbiGetJson attempts = FetchResult.failure (ncbiErrorMessage s b)) ∧
    (attempts.all isRetryableHttp = true →
      ncbiGetJson attempts = FetchResult.failure "NCBI request failed after retries") ∧
    (attempts.getLast? = some (Attempt.http s b) →
      attempts.all isNonRetryableHttp = true →
      reporterSearch attempts = FetchResult.failure (reporterErrorMessage s b)) := by
  refine ⟨?_, ?_, ?_⟩
  · exact fun h1 h2 => ncbiGetJson_all_nonretryable attempts s b h1 h2
  · exact fun h => ncbiGetJson_all_retryable attempts h
  · exact fun h1 h2 => reporterSearch_all_nonretryable attempts s b h1 h2

/-- C3, witness: the amended theorem applied to a concrete two-attempt run
of 404 responses and a concrete run of 429 responses. -/
theorem c3_retry_client_amended_witness :
    ncbiGetJson [Attempt.http 404 "a", Attempt.http 404 "b"] =
      FetchResult.failure (ncbiErrorMessage 404 "b") ∧
    ncbiGetJson [Attempt.http 429 "x", Attempt.http 429 "y"] =
      FetchResult.failure "NCBI request failed after retries" ∧
    reporterSearch [Attempt.http 404 "a", Attempt.http 404 "b"] =
      FetchResult.failure (reporterErrorMessage 404 "b") := by
  refine ⟨?_, ?_, ?_⟩
  · exact (c3_retry_client_amended [Attempt.http 404 "a", Attempt.http 404 "b"] 404 "b").1
      (by decide) (by decide)
  · exact (c3_retry_client_amended [Attempt.http 429 "x", Attempt.http 429 "y"] 404 "b").2.1
      (by decide)
  · exact (c3_retry_client_amended [Attempt.http 404 "a", Attempt.http 404 "b"] 404 "b").2.2
      (by decide) (by decide)

/-- C4, counterexample: keyword extraction on the given title does not
return the singleton list containing only "diabetes". -/
theorem c4_counterexample :
    extractKeywords "Outcomes of Long-Term Follow-Up Studies in Diabetes" ≠
      ["diabetes"] := by
  decide

/-- C4, amended: with the program's fixed stopword list, the tokens
"term" and "follow" survive the filter (neither is a stopword and both
have length at least 3), so extraction on the title returns
["term", "follow", "diabetes"] — "diabetes" is retained but is not the
only retained keyword. -/
theorem c4_extract_keywords_amended :
    extractKeywords "Outcomes of Long-Term Follow-Up Studies in Diabetes" =
      ["term", "follow", "diabetes"] ∧
    ¬ ("term" ∈ STOPWORDS) ∧ ¬ ("follow" ∈ STOPWORDS) := by
  exact ⟨rfl, by decide, by decide⟩

theorem variantMatches_of_initials (authorLast authorFore : String) (ai : Option Char)
    (v : NameVariant) (c : Char)
    (hlast : normalizeName v.lastName = authorLast) (hne : authorLast ≠ "")
    (hai : ai = some c) (hpi : (normalizeName v.foreName).toList.head? = some c) :
    variantMatches authorLast authorFore ai v = true := by
  simp only [variantMatches, hlast, hai, hpi]
  rw [if_neg]
  · split
    · rfl
    · simp
  · simp [hne]

theorem authorMatchesPerson_of_variant (a : Author) (p : Person) (v : NameVariant)
    (horc : p.orcid = "") (hlast : normalizeName a.lastName ≠ "")
    (hv : v ∈ resolvedVariants p)
    (hm : variantMatches (normalizeName a.lastName) (normalizeName a.foreName)
      (authorInitialOf a) v = true) :
    authorMatchesPerson (some a) p = true := by
  simp only [authorMatchesPerson, horc]
  simp only [ne_eq, not_true_eq_false, if_false, ite_false]
  rw [if_neg (by simp)]
  rw [if_neg (by simp [hlast])]
  exact List.any_eq_true.2 ⟨v, hv, hm⟩

theorem fau_clause_not_ends_au (tl tf : String) :
    endsWithList (tl ++ " " ++ tf ++ "[fau]").toList "[au]".toList = false := by
  have e : (tl ++ " " ++ tf ++ "[fau]").toList =
      tl.toList ++ " ".toList ++ tf.toList ++ "[fau]".toList := by
    simp [String.toList, String.data_append]
  rw [endsWithList, e]
  have e2 : ("[fau]".toList).reverse = [']', 'u', 'a', 'f', '['] := rfl
  have e3 : ("[au]".toList).reverse = [']', 'u', 'a', '['] := rfl
  rw [List.reverse_append, e2, e3]
  simp [startsWithList]

theorem clausesOfVariant_no_initials (v : NameVariant) (clause : String)
    (h : clause ∈ clausesOfVariant false v) :
    endsWithList clause.toList "[au]".toList = false := by
  simp only [clausesOfVariant, Bool.false_and, Bool.and_eq_true] at h
  split at h
  · simp at h
  · rename_i hlastne
    simp only [if_neg (by simp : ¬ (false = true))] at h
    simp only [ne_eq, not_true_eq_false, if_false, List.append_nil] at h
    by_cases hfore : jsTrim v.foreName = ""
    · simp [hfore] at h
    · simp only [hfore, hlastne, not_false_eq_true, and_self] at h
      split at h
      · split at h
        · rw [List.mem_singleton] at h
          subst h
          exact fau_clause_not_ends_au _ _
        · simp at h
      · rename_i hdec
        simp at hdec

theorem auid_clause_not_ends_au (o : String) :
    endsWithList (o ++ "[auid]").toList "[au]".toList = false := by
  have e : (o ++ "[auid]").toList = o.toList ++ "[auid]".toList := by
    simp [String.toList, String.data_append]
  have e2 : ("[auid]".toList).reverse = [']', 'd', 'i', 'u', 'a', '['] := rfl
  have e3 : ("[au]".toList).reverse = [']', 'u', 'a', '['] := rfl
  rw [endsWithList, e, List.reverse_append, e2, e3]
  simp [startsWithList]

/-- C2, counterexample: with no ORCID, an author entry ("John Larson",
initials "J") whose normalized given name "john" is neither equal to nor
in a prefix relation with the variant's "jane", but whose first initial
matches, is nonetheless accepted by `authorMatchesPerson`.  The function
reads no initials toggle at all — `PUB_USE_INITIALS` is consulted only by
`buildTerm` when constructing the search expression — so the acceptance
happens whatever the toggle's value. -/
theorem c2_counterexample :
    (let author : Author := ⟨"Larson", "John", "J", "", [], []⟩
     let person : Person := ⟨"Jane Larson", "", "Jane", "Larson", [⟨"Jane", "Larson"⟩]⟩
     person.orcid = "" ∧
     normalizeName author.foreName ≠ normalizeName "Jane" ∧
     startsWithList (normalizeName author.foreName).toList (normalizeName "Jane").toList = false ∧
     startsWithList (normalizeName "Jane").toList (normalizeName author.foreName).toList = false ∧
     authorMatchesPerson (some author) person = true) := by
  decide

/-- C2, amended: when the initials toggle is disabled the query builder
emits no surname-plus-first-initial `[au]` clause, but author identity
resolution is not gated by the toggle: an author entry whose normalized
first initial agrees with that of a variant with matching normalized
family name is accepted by `authorMatchesPerson` for an ORCID-less
researcher, so initials-only candidates can still be accepted. -/
theorem c2_initials_toggle_amended (nameVariants : List NameVariant) (orcid : String)
    (a : Author) (p : Person) (v : NameVariant) (c : Char) :
    (∀ clause ∈ buildAuthorClauseList nameVariants orcid false,
      endsWithList clause.toList "[au]".toList = false) ∧
    (p.orcid = "" →
     normalizeName a.lastName ≠ "" →
     v ∈ resolvedVariants p →
     normalizeName v.lastName = normalizeName a.lastName →
     authorInitialOf a = some c →
     (normalizeName v.foreName).toList.head? = some c →
     authorMatchesPerson (some a) p = true) := by
  constructor
  · intro clause hc
    rw [buildAuthorClauseList] at hc
    rcases List.mem_append.1 hc with hm | hm
    · obtain ⟨v', _, hv'⟩ := List.mem_flatMap.1 hm
      exact clausesOfVariant_no_initials v' clause hv'
    · split at hm
      · rw [List.mem_singleton] at hm
        subst hm
        exact auid_clause_not_ends_au orcid
      · simp at hm
  · intro h1 h2 h3 h4 h5 h6
    exact authorMatchesPerson_of_variant a p v h1 h2 h3
      (variantMatches_of_initials _ _ _ v c h4 h2 h5 h6)

/-- C2, witness: the amended theorem applied to the concrete researcher
"Jane Larson" (no ORCID) and the concrete author entry "John Larson". -/
theorem c2_initials_toggle_amended_witness :
    (∀ clause ∈ buildAuthorClauseList [⟨"Jane", "Larson"⟩] "" false,
      endsWithList clause.toList "[au]".toList = false) ∧
    authorMatchesPerson (some ⟨"Larson", "John", "J", "", [], []⟩)
      ⟨"Jane Larson", "", "Jane", "Larson", [⟨"Jane", "Larson"⟩]⟩ = true := by
  constructor
  · exact (c2_initials_toggle_amended [⟨"Jane", "Larson"⟩] ""
      ⟨"Larson", "John", "J", "", [], []⟩
      ⟨"Jane Larson", "", "Jane", "Larson", [⟨"Jane", "Larson"⟩]⟩
      ⟨"Jane", "Larson"⟩ 'j').1
  · exact (c2_initials_toggle_amended [⟨"Jane", "Larson"⟩] ""
      ⟨"Larson", "John", "J", "", [], []⟩
      ⟨"Jane Larson", "", "Jane", "Larson", [⟨"Jane", "Larson"⟩]⟩
      ⟨"Jane", "Larson"⟩ 'j').2 rfl (by decide) (by decide) rfl rfl rfl

theorem mapGet_mapSet_self {α : Type} (m : List (String × α)) (key : String) (value : α) :
    mapGet (mapSet m key value) key = some value := by
  induction m with
  | nil => simp [mapSet, mapGet, List.find?]
  | cons e rest ih =>
    by_cases he : e.1 == key
    · rw [mapSet, if_pos (by simp [List.any_cons, he])]
      rw [List.map_cons, if_pos he]
      simp [mapGet, List.find?]
    · rw [mapSet] at ih ⊢
      by_cases hany : rest.any (fun x => x.1 == key)
      · rw [if_pos (by simp [List.any_cons, hany])]
        rw [List.map_cons, if_neg he]
        rw [if_pos hany] at ih
        rw [mapGet, List.find?_cons_of_neg _ (by simpa using he)]
        exact ih
      · rw [if_neg (by simp [List.any_cons, he, hany])]
        rw [if_neg hany] at ih
        rw [List.cons_append]
        rw [mapGet, List.find?_cons_of_neg _ (by simpa using he)]
        exact ih

theorem mem_setAdd_self (s : List String) (x : String) : x ∈ setAdd s x := by
  rw [setAdd]
  split
  · assumption
  · simp

theorem setAdd_subset (s : List String) (x y : String) (h : y ∈ s) : y ∈ setAdd s x := by
  rw [setAdd]
  split
  · exact h
  · simp [h]

theorem foldl_preserve {α β : Type} (P : α → Prop) (step : α → β → α)
    (hstep : ∀ a b, P a → P (step a b)) :
    ∀ (l : List β) (a : α), P a → P (l.foldl step a) := by
  intro l
  induction l with
  | nil => intro a ha; exact ha
  | cons x xs ih => intro a ha; exact ih (step a x) (hstep a x ha)

theorem processArticle_valid_mono (person : Person) (normalizedAllowed : List String)
    (state : FilterResult) (article : Article) (x : String)
    (hx : x ∈ state.validPmids) :
    x ∈ (processArticle person normalizedAllowed state article).validPmids := by
  simp only [processArticle]
  repeat' split
  all_goals first
    | exact hx
    | exact setAdd_subset _ _ _ hx

theorem processArticle_missing_mono (person : Person) (normalizedAllowed : List String)
    (state : FilterResult) (article : Article) :
    state.missingAffiliationCount ≤
      (processArticle person normalizedAllowed state article).missingAffiliationCount := by
  simp only [processArticle]
  repeat' split
  all_goals simp

theorem processArticles_foldl_valid_mono (person : Person) (normalizedAllowed : List String)
    (articles : List Article) (state : FilterResult) (x : String)
    (hx : x ∈ state.validPmids) :
    x ∈ (articles.foldl (processArticle person normalizedAllowed) state).validPmids := by
  exact foldl_preserve (fun st => x ∈ st.validPmids) _
    (fun st art h => processArticle_valid_mono person normalizedAllowed st art x h)
    articles state hx

theorem processArticles_foldl_missing_mono (person : Person) (normalizedAllowed : List String)
    (articles : List Article) (state : FilterResult) (n : Nat)
    (hn : n ≤ state.missingAffiliationCount) :
    n ≤ (articles.foldl (processArticle person normalizedAllowed) state).missingAffiliationCount := by
  exact foldl_preserve (fun st => n ≤ st.missingAffiliationCount) _
    (fun st art h => le_trans h (processArticle_missing_mono person normalizedAllowed st art))
    articles state hn

theorem processArticle_missing_affiliation_hit (person : Person)
    (normalizedAllowed : List String) (state : FilterResult) (article : Article)
    (i : Nat) (matchedAuthor : Author)
    (hidx : article.authors.findIdx? (fun a => authorMatchesPerson (some a) person) = some i)
    (hget : article.authors[i]? = some matchedAuthor)
    (haff : extractAffiliations matchedAuthor = []) :
    article.pmid ∈ (processArticle person normalizedAllowed state article).validPmids ∧
    (processArticle person normalizedAllowed state article).missingAffiliationCount =
      state.missingAffiliationCount + 1 := by
  simp only [processArticle, hidx, hget, haff]
  constructor
  · repeat' split
    all_goals first
      | exact mem_setAdd_self _ _
      | simp_all
  · repeat' split
    all_goals first
      | rfl
      | simp_all

/-- C5: the authorship facts recorded for a resolved record with an
author list of length N and first matched (0-based) index i are
position = i, total = N, isFirst exactly when i = 0, and isLast exactly
when i = N - 1; a sole author (N = 1) gets both flags. -/
theorem c5_authorship_position_facts (person : Person) (normalizedAllowed : List String)
    (state : FilterResult) (article : Article) (i : Nat)
    (hpm : article.pmid ≠ "")
    (hidx : article.authors.findIdx? (fun a => authorMatchesPerson (some a) person) = some i) :
    mapGet (processArticle person normalizedAllowed state article).authorshipByPmid
        article.pmid =
      some ⟨i, article.authors.length, decide (i = 0),
        decide (i = article.authors.length - 1)⟩ ∧
    (article.authors.length = 1 →
      mapGet (processArticle person normalizedAllowed state article).authorshipByPmid
          article.pmid = some ⟨0, 1, true, true⟩) := by
  have hN : i < article.authors.length := (List.findIdx?_eq_some_iff_findIdx_eq.mp hidx).1
  have hfirst : (i == 0) = decide (i = 0) := by
    by_cases h : i = 0 <;> simp [h]
  have hlast : (decide (0 < article.authors.length) && (i == article.authors.length - 1)) =
      decide (i = article.authors.length - 1) := by
    have hpos : 0 < article.authors.length := Nat.lt_of_le_of_lt (Nat.zero_le i) hN
    by_cases h : i = article.authors.length - 1 <;> simp [h, hpos]
  have hmain : mapGet (processArticle person normalizedAllowed state article).authorshipByPmid
      article.pmid =
      some ⟨i, article.authors.length, decide (i = 0),
        decide (i = article.authors.length - 1)⟩ := by
    simp only [processArticle, hidx]
    repeat' split
    all_goals simp_all [mapGet_mapSet_self, hfirst, hlast]
  refine ⟨hmain, fun hone => ?_⟩
  have hi0 : i = 0 := by omega
  rw [hmain]
  subst hi0
  rw [hone]
  simp

/-- C5, witness: the facts theorem applied to a concrete record with 5
authors matched at index 4 (yielding position 4, total 5, not first,
last) and to a concrete sole-author record. -/
theorem c5_authorship_position_facts_witness :
    mapGet (processArticle ⟨"Jane Larson", "", "Jane", "Larson", [⟨"Jane", "Larson"⟩]⟩ []
        emptyFilterResult
        ⟨"555", [⟨"Smith", "Ann", "A", "", [], []⟩, ⟨"Jones", "Bob", "B", "", [], []⟩,
          ⟨"Brown", "Cam", "C", "", [], []⟩, ⟨"Davis", "Dee", "D", "", [], []⟩,
          ⟨"Larson", "Jane", "J", "", [], []⟩], none⟩).authorshipByPmid "555" =
      some ⟨4, 5, false, true⟩ ∧
    mapGet (processArticle ⟨"Jane Larson", "", "Jane", "Larson", [⟨"Jane", "Larson"⟩]⟩ []
        emptyFilterResult
        ⟨"556", [⟨"Larson", "Jane", "J", "", [], []⟩], none⟩).authorshipByPmid "556" =
      some ⟨0, 1, true, true⟩ := by
  constructor
  · exact (c5_authorship_position_facts
      ⟨"Jane Larson", "", "Jane", "Larson", [⟨"Jane", "Larson"⟩]⟩ [] emptyFilterResult
      ⟨"555", [⟨"Smith", "Ann", "A", "", [], []⟩, ⟨"Jones", "Bob", "B", "", [], []⟩,
        ⟨"Brown", "Cam", "C", "", [], []⟩, ⟨"Davis", "Dee", "D", "", [], []⟩,
        ⟨"Larson", "Jane", "J", "", [], []⟩], none⟩ 4 (by decide) (by decide)).1
  · exact (c5_authorship_position_facts
      ⟨"Jane Larson", "", "Jane", "Larson", [⟨"Jane", "Larson"⟩]⟩ [] emptyFilterResult
      ⟨"556", [⟨"Larson", "Jane", "J", "", [], []⟩], none⟩ 0 (by decide) (by decide)).2 rfl

/-- C6: a candidate record whose matched author entry carries zero
affiliation strings is accepted into the valid set (affiliation filtering
keeps it), and the missing-affiliation count driving the per-researcher
warning is positive; the resolver is a total function of its inputs, so
missing affiliation data never produces an error. -/
theorem c6_missing_affiliation_kept (articles : List Article) (person : Person)
    (affiliationTerms : List String) (article : Article) (i : Nat) (matchedAuthor : Author)
    (hmem : article ∈ articles)
    (hidx : article.authors.findIdx? (fun a => authorMatchesPerson (some a) person) = some i)
    (hget : article.authors[i]? = some matchedAuthor)
    (haff : extractAffiliations matchedAuthor = []) :
    article.pmid ∈
      (filterPmidsByAuthorAffiliation articles person affiliationTerms).validPmids ∧
    0 < (filterPmidsByAuthorAffiliation articles person affiliationTerms).missingAffiliationCount := by
  obtain ⟨l1, l2, rfl⟩ := List.append_of_mem hmem
  simp only [filterPmidsByAuthorAffiliation, processArticles]
  rw [List.foldl_append, List.foldl_cons]
  constructor
  · exact processArticles_foldl_valid_mono _ _ l2 _ _
      (processArticle_missing_affiliation_hit _ _ _ article i matchedAuthor hidx hget haff).1
  · refine processArticles_foldl_missing_mono _ _ l2 _ 1 ?_
    rw [(processArticle_missing_affiliation_hit _ _ _ article i matchedAuthor hidx hget haff).2]
    omega

/-- C6, witness: the theorem applied to a concrete batch with one record
whose only author matches the researcher and has no affiliations. -/
theorem c6_missing_affiliation_kept_witness :
    "123" ∈ (filterPmidsByAuthorAffiliation
      [⟨"123", [⟨"Larson", "Jane", "J", "", [], []⟩], none⟩]
      ⟨"Jane Larson", "", "Jane", "Larson", [⟨"Jane", "Larson"⟩]⟩ []).validPmids ∧
    0 < (filterPmidsByAuthorAffiliation
      [⟨"123", [⟨"Larson", "Jane", "J", "", [], []⟩], none⟩]
      ⟨"Jane Larson", "", "Jane", "Larson", [⟨"Jane", "Larson"⟩]⟩
      []).missingAffiliationCount := by
  exact c6_missing_affiliation_kept
    [⟨"123", [⟨"Larson", "Jane", "J", "", [], []⟩], none⟩]
    ⟨"Jane Larson", "", "Jane", "Larson", [⟨"Jane", "Larson"⟩]⟩ []
    ⟨"123", [⟨"Larson", "Jane", "J", "", [], []⟩], none⟩ 0
    ⟨"Larson", "Jane", "J", "", [], []⟩
    (by simp) (by decide) (by decide) (by decide)

/-- C7: legacy curation seeding is a no-op whenever the curation table
already has at least one row: whatever the legacy file's presence or
contents, the table is returned unchanged, so every existing verdict row
survives re-running the seeding step. -/
theorem c7_seed_noop_on_nonempty (fileExists : Bool) (data : Option SeedFile)
    (table : List CurationRow) (timestamp : String) (hne : table ≠ []) :
    seedCurationFromJson fileExists data table timestamp = table := by
  have hlen : 0 < table.length := List.length_pos.mpr hne
  cases fileExists with
  | false => rfl
  | true => simp [seedCurationFromJson, hlen]

/-- C7, witness: seeding with the legacy file present and readable leaves
a concrete one-row table unchanged. -/
theorem c7_seed_noop_on_nonempty_witness :
    seedCurationFromJson true (some ⟨[("f", ⟨["1"], ["2"]⟩)]⟩)
      [⟨"g", "9", Verdict.truePositive, none, "t0"⟩] "t1" =
      [⟨"g", "9", Verdict.truePositive, none, "t0"⟩] := by
  exact c7_seed_noop_on_nonempty true (some ⟨[("f", ⟨["1"], ["2"]⟩)]⟩)
    [⟨"g", "9", Verdict.truePositive, none, "t0"⟩] "t1" (by simp)

/-- C8: re-upserting an association for an existing (faculty_id, pmid)
pair changes only the last-seen column — keys, first-seen and source of
every row are untouched — while inserting a new pair appends a row with
first-seen and last-seen equal to the same timestamp. -/
theorem c8_association_upsert (table : List FacultyPubRow) (facultyId pmid timestamp : String) :
    (table.any (fun r => r.facultyId == facultyId && r.pmid == pmid) = true →
      (upsertFacultyPublication table facultyId pmid timestamp).map
          (fun r => (r.facultyId, r.pmid, r.firstSeenAt, r.source)) =
        table.map (fun r => (r.facultyId, r.pmid, r.firstSeenAt, r.source)) ∧
      ∀ r ∈ upsertFacultyPublication table facultyId pmid timestamp,
        r.facultyId = facultyId → r.pmid = pmid → r.lastSeenAt = timestamp) ∧
    (table.any (fun r => r.facultyId == facultyId && r.pmid == pmid) = false →
      upsertFacultyPublication table facultyId pmid timestamp =
        table ++ [⟨facultyId, pmid, timestamp, timestamp, "pubmed"⟩]) := by
  constructor
  · intro hany
    rw [upsertFacultyPublication, if_pos hany]
    constructor
    · rw [List.map_map]
      refine List.map_congr_left ?_
      intro r _
      simp only [Function.comp_apply]
      split <;> rfl
    · intro r hr h1 h2
      rw [List.mem_map] at hr
      obtain ⟨r0, hr0, hfr⟩ := hr
      by_cases h : (r0.facultyId == facultyId && r0.pmid == pmid) = true
      · rw [if_pos h] at hfr
        subst hfr
        rfl
      · rw [if_neg h] at hfr
        subst hfr
        exact absurd (by simp [h1, h2]) h
  · intro hany
    rw [upsertFacultyPublication, if_neg (by simp [hany])]

/-- C8, witness: the update case on a concrete one-row table and the
insert case on the empty table. -/
theorem c8_association_upsert_witness :
    ((upsertFacultyPublication [⟨"f", "1", "t0", "t0", "pubmed"⟩] "f" "1" "t1").map
        (fun r => (r.facultyId, r.pmid, r.firstSeenAt, r.source)) =
      ([⟨"f", "1", "t0", "t0", "pubmed"⟩] : List FacultyPubRow).map
        (fun r => (r.facultyId, r.pmid, r.firstSeenAt, r.source)) ∧
     ∀ r ∈ upsertFacultyPublication [⟨"f", "1", "t0", "t0", "pubmed"⟩] "f" "1" "t1",
       r.facultyId = "f" → r.pmid = "1" → r.lastSeenAt = "t1") ∧
    upsertFacultyPublication [] "f" "1" "t1" = [⟨"f", "1", "t1", "t1", "pubmed"⟩] := by
  constructor
  · exact (c8_association_upsert [⟨"f", "1", "t0", "t0", "pubmed"⟩] "f" "1" "t1").1 (by decide)
  · exact (c8_association_upsert [] "f" "1" "t1").2 (by decide)

theorem curationUpsert_key_fields (row : CurationRow) (r : CurationRow) :
    (if (r.facultyId == row.facultyId && r.pmid == row.pmid) = true then
      { r with verdict := row.verdict, reason := row.reason, updatedAt := row.updatedAt }
     else r).facultyId = r.facultyId ∧
    (if (r.facultyId == row.facultyId && r.pmid == row.pmid) = true then
      { r with verdict := row.verdict, reason := row.reason, updatedAt := row.updatedAt }
     else r).pmid = r.pmid := by
  split <;> exact ⟨rfl, rfl⟩

theorem curationUpsert_preserves_unique (table : List CurationRow) (row : CurationRow)
    (h : curationKeyUnique table) : curationKeyUnique (curationUpsert table row) := by
  simp only [curationKeyUnique] at h ⊢
  rw [curationUpsert]
  split
  · refine List.Pairwise.map _ ?_ h
    intro a b hab hcontra
    apply hab
    obtain ⟨ha1, ha2⟩ := curationUpsert_key_fields row a
    obtain ⟨hb1, hb2⟩ := curationUpsert_key_fields row b
    rw [ha1, ha2, hb1, hb2] at hcontra
    exact hcontra
  · rename_i hany
    rw [List.pairwise_append]
    refine ⟨h, List.pairwise_singleton _ _, ?_⟩
    intro a ha b hb
    rw [List.mem_singleton] at hb
    subst hb
    rw [Bool.not_eq_true, List.any_eq_false] at hany
    intro hcontra
    exact hany a ha (by simp [hcontra.1, hcontra.2])

theorem seedCurationFromJson_preserves_unique (fileExists : Bool) (data : Option SeedFile)
    (table : List CurationRow) (timestamp : String) (h : curationKeyUnique table) :
    curationKeyUnique (seedCurationFromJson fileExists data table timestamp) := by
  rw [seedCurationFromJson.eq_def]
  split
  · exact h
  · split
    · exact h
    · split
      · exact h
      · refine foldl_preserve curationKeyUnique _ ?_ _ _ h
        intro t entry ht
        refine foldl_preserve curationKeyUnique _ ?_ _ _ ?_
        · intro a b hb
          exact curationUpsert_preserves_unique a _ hb
        · refine foldl_preserve curationKeyUnique _ ?_ _ _ ht
          intro a b hb
          exact curationUpsert_preserves_unique a _ hb

/-- C9: the curation store keeps at most one verdict row per
(researcher, record) pair: the invariant holds for the freshly created
empty table and is preserved by the conflict-handling upsert and by the
legacy seeding step (the only writers in the pipeline); and writing a
verdict for a pair that already has a row keeps the row count and
replaces that row's verdict, reason and timestamp rather than adding a
second row. -/
theorem c9_one_verdict_per_pair (table : List CurationRow) (row : CurationRow)
    (fileExists : Bool) (data : Option SeedFile) (timestamp : String) :
    curationKeyUnique [] ∧
    (curationKeyUnique table → curationKeyUnique (curationUpsert table row)) ∧
    (curationKeyUnique table →
      curationKeyUnique (seedCurationFromJson fileExists data table timestamp)) ∧
    (table.any (fun r => r.facultyId == row.facultyId && r.pmid == row.pmid) = true →
      (curationUpsert table row).length = table.length ∧
      ∀ r ∈ curationUpsert table row, r.facultyId = row.facultyId → r.pmid = row.pmid →
        r.verdict = row.verdict ∧ r.reason = row.reason ∧ r.updatedAt = row.updatedAt) := by
  refine ⟨List.Pairwise.nil, curationUpsert_preserves_unique table row,
    seedCurationFromJson_preserves_unique fileExists data table timestamp, ?_⟩
  intro hany
  rw [curationUpsert, if_pos hany]
  constructor
  · rw [List.length_map]
  · intro r hr h1 h2
    rw [List.mem_map] at hr
    obtain ⟨r0, hr0, hfr⟩ := hr
    by_cases h : (r0.facultyId == row.facultyId && r0.pmid == row.pmid) = true
    · rw [if_pos h] at hfr
      subst hfr
      exact ⟨rfl, rfl, rfl⟩
    · rw [if_neg h] at hfr
      subst hfr
      exact absurd (by simp [h1, h2]) h

/-- C9, witness: the theorem applied to a concrete one-row table and a
replacing verdict for the same pair. -/
theorem c9_one_verdict_per_pair_witness :
    curationKeyUnique
      (curationUpsert [⟨"f", "1", Verdict.truePositive, none, "t0"⟩]
        ⟨"f", "1", Verdict.falsePositive, some "r", "t1"⟩) ∧
    (curationUpsert [⟨"f", "1", Verdict.truePositive, none, "t0"⟩]
        ⟨"f", "1", Verdict.falsePositive, some "r", "t1"⟩).length = 1 ∧
    ∀ r ∈ curationUpsert [⟨"f", "1", Verdict.truePositive, none, "t0"⟩]
        ⟨"f", "1", Verdict.falsePositive, some "r", "t1"⟩,
      r.facultyId = "f" → r.pmid = "1" →
      r.verdict = Verdict.falsePositive ∧ r.reason = some "r" ∧ r.updatedAt = "t1" := by
  have h := c9_one_verdict_per_pair [⟨"f", "1", Verdict.truePositive, none, "t0"⟩]
    ⟨"f", "1", Verdict.falsePositive, some "r", "t1"⟩ true none "t1"
  refine ⟨h.2.1 ?_, (h.2.2.2 ?_).1, (h.2.2.2 ?_).2⟩
  · exact List.pairwise_singleton _ _
  · decide
  · decide

/-- C10: with a start date set and a null resolved publication date, a
record whose extracted year equals the start year is excluded by
`shouldIncludePublication` even though that year is inside the window,
while a record with no resolved date and any other in-window year is
included. -/
theorem c10_date_window_edge (sd : JsDate) (endDate : Option JsDate) (y : Int) :
    ((∀ e, endDate = some e → sd.year ≤ e.year) →
      shouldIncludePublication none (some sd.year) (some sd) endDate = false) ∧
    (y ≠ sd.year → sd.year ≤ y → (∀ e, endDate = some e → y ≤ e.year) →
      shouldIncludePublication none (some y) (some sd) endDate = true) := by
  constructor
  · intro hend
    cases endDate with
    | none =>
      simp [shouldIncludePublication, truthyLt, truthyGt, dateLt, jsStrictEqNum, lt_irrefl]
    | some e =>
      have hnl : ¬ (e.year < sd.year) := not_lt.mpr (hend e rfl)
      simp [shouldIncludePublication, truthyLt, truthyGt, dateLt, jsStrictEqNum,
        lt_irrefl, hnl]
  · intro hne hge hend
    have hnl : ¬ (y < sd.year) := not_lt.mpr hge
    cases endDate with
    | none =>
      simp [shouldIncludePublication, truthyLt, truthyGt, dateLt, jsStrictEqNum, hnl, hne]
    | some e =>
      have hnl2 : ¬ (e.year < y) := not_lt.mpr (hend e rfl)
      simp [shouldIncludePublication, truthyLt, truthyGt, dateLt, jsStrictEqNum,
        hnl, hnl2, hne]

/-- C10, witness: start 2020-01-01, end 2025-12-31; a dateless record of
year 2020 is excluded, a dateless record of year 2022 is included. -/
theorem c10_date_window_edge_witness :
    shouldIncludePublication none (some 2020) (some (mkDate 2020 0 1))
      (some (mkDate 2025 11 31)) = false ∧
    shouldIncludePublication none (some 2022) (some (mkDate 2020 0 1))
      (some (mkDate 2025 11 31)) = true := by
  constructor
  · exact (c10_date_window_edge (mkDate 2020 0 1) (some (mkDate 2025 11 31)) 2022).1
      (by intro e he; cases he; decide)
  · exact (c10_date_window_edge (mkDate 2020 0 1) (some (mkDate 2025 11 31)) 2022).2
      (by decide) (by decide) (by intro e he; cases he; decide)

theorem mem_newSetFromList (l : List String) (x : String) (h : x ∈ l) :
    x ∈ newSetFromList l := by
  suffices H : ∀ (l2 : List String) (acc : List String),
      (x ∈ acc ∨ x ∈ l2) → x ∈ l2.foldl setAdd acc by
    exact H l [] (Or.inr h)
  intro l2
  induction l2 with
  | nil =>
    intro acc hacc
    rcases hacc with h1 | h1
    · exact h1
    · simp at h1
  | cons a rest ih =>
    intro acc hacc
    rw [List.foldl_cons]
    rcases hacc with h1 | h1
    · exact ih _ (Or.inl (setAdd_subset _ _ _ h1))
    · rcases List.mem_cons.mp h1 with h2 | h2
      · subst h2
        exact ih _ (Or.inl (mem_setAdd_self _ _))
      · exact ih _ (Or.inr h2)

/-- C1: curation verdicts override automatic matching.  A false-positive
verdict row for (researcher, record) keeps the record out of the
accepted-set read whatever the association and publication tables hold
(in particular when automatic matching accepted and associated it); and a
summary whose uid carries a true-positive verdict (and no false-positive
one) is in the upserted set whatever its dates — the date-window filter
is bypassed — and even when the resolver did not accept it. -/
theorem c1_curation_overrides (pubs : List PublicationRow)
    (facultyPubs : List FacultyPubRow) (curation : List CurationRow)
    (facultyId pmid : String) (summaries : List Summary)
    (validPmids truePositiveSet falsePositiveSet : List String)
    (pubDates : List (String × JsDate)) (startDate endDate : Option JsDate)
    (s : Summary) :
    ((∃ c ∈ curation, c.facultyId = facultyId ∧ c.pmid = pmid ∧
        c.verdict = Verdict.falsePositive) →
      ∀ p ∈ getPublicationsForFaculty pubs facultyPubs curation facultyId,
        p.pmid ≠ pmid) ∧
    (s ∈ summaries → s.uid ∈ truePositiveSet → s.uid ∉ falsePositiveSet →
      ∃ pub ∈ publicationsToUpsert summaries validPmids truePositiveSet
          falsePositiveSet pubDates startDate endDate, pub.id = s.uid) := by
  constructor
  · rintro ⟨c, hc, hcf, hcp, hcv⟩ p hp hpe
    rw [getPublicationsForFaculty, List.mem_filter] at hp
    have h2 := hp.2
    rw [Bool.and_eq_true, Bool.not_eq_true', List.any_eq_false] at h2
    exact h2.2 c hc (by simp [hcf, hcp, hpe, hcv])
  · intro hs htp hfp
    refine ⟨mapSummaryToPublication s (resolvePubDate s pubDates), ?_, rfl⟩
    simp only [publicationsToUpsert]
    refine List.mem_map_of_mem _ ?_
    rw [List.mem_filter]
    constructor
    · rw [List.mem_filter]
      constructor
      · rw [List.mem_filter]
        refine ⟨hs, ?_⟩
        have hmem : s.uid ∈ curatedValidPmids validPmids truePositiveSet :=
          mem_newSetFromList _ _ (List.mem_append.mpr (Or.inr htp))
        simpa using hmem
      · simpa using hfp
    · simp only [Bool.or_eq_true]
      left
      simpa using htp

/-- C1, witness: a concrete store where "77" has a false-positive verdict
is read without it, and a concrete true-positive summary dated outside
the window is still upserted. -/
theorem c1_curation_overrides_witness :
    (∀ p ∈ getPublicationsForFaculty
        [⟨"77", "T", "J", some 2020, "", "", "t"⟩]
        [⟨"f", "77", "t", "t", "pubmed"⟩]
        [⟨"f", "77", Verdict.falsePositive, none, "t"⟩] "f",
      p.pmid ≠ "77") ∧
    ∃ pub ∈ publicationsToUpsert [⟨"88", "A Title", "J", "", "1999 Jan", []⟩]
        [] ["88"] [] [] (some (mkDate 2020 0 1)) (some (mkDate 2025 11 31)),
      pub.id = "88" := by
  have h := c1_curation_overrides
    [⟨"77", "T", "J", some 2020, "", "", "t"⟩]
    [⟨"f", "77", "t", "t", "pubmed"⟩]
    [⟨"f", "77", Verdict.falsePositive, none, "t"⟩] "f" "77"
    [⟨"88", "A Title", "J", "", "1999 Jan", []⟩] [] ["88"] [] []
    (some (mkDate 2020 0 1)) (some (mkDate 2025 11 31))
    ⟨"88", "A Title", "J", "", "1999 Jan", []⟩
  refine ⟨h.1 ?_, h.2 ?_ ?_ ?_⟩
  · exact ⟨⟨"f", "77", Verdict.falsePositive, none, "t"⟩, by simp, rfl, rfl, rfl⟩
  · simp
  · simp
  · simp

end PubPub
